import Mathlib

/-!
# Detector: a shallow embedding of `main.go`

The program loads YAML detection rules from `<cwd>/rules`, collects the `.py`
and `.go` files under `<cwd>/fixtures`, and prints a report for every
(rule, file) pair whose file content matches the rule's regular expression.

Everything the program obtains from the operating system or from a library
(`os.Getwd`, `ioutil.ReadDir`, `ioutil.ReadFile`, `yaml.Unmarshal`,
`filepath.WalkDir`, `regexp.Compile`) is a field of `World`.  Calls to the
logrus logger are recorded, in program order, as a list of `Event`s.
-/

namespace Detector

/-! ## Data model -/

/-- The type a YAML detection rule is unmarshalled into (`ApplicationRule`). -/
structure ApplicationRule where
  Example : String
  Language : String
  Library : String
  RuleName : String
  SecretPattern : String
  deriving DecidableEq, Repr

/-- The zero value `new(ApplicationRule)` points to. -/
def ApplicationRule.zero : ApplicationRule := ⟨"", "", "", "", ""⟩

/-- A compiled regular expression (`*regexp.Regexp`).  Only
`FindAllStringSubmatch(s, -1)` is used by the program: it returns all
successive non-overlapping matches, each as the slice
`[whole match, group 1, ..., group n]`, which is never empty. -/
structure Regexp where
  FindAllStringSubmatch : String → List (List String)
  submatch_ne_nil : ∀ s m, m ∈ FindAllStringSubmatch s → m ≠ []

/-- One call of the function `filepath.WalkDir` passes to its callback:
`entry path name` is a call `fn(path, d, nil)` with `d.Name() = name`;
`failure path err` is a call `fn(path, d, err)` with `err != nil`
(the `Lstat` of the root failed, or a directory could not be read). -/
inductive Visit where
  | entry (path name : String)
  | failure (path err : String)
  deriving DecidableEq, Repr

/-- What the program observes of its environment.  Errors are represented by
their message. -/
structure World where
  /-- Result of `os.Getwd()`. -/
  Getwd : Except String String
  /-- Result of `ioutil.ReadDir(path)`: the entry names, sorted by name. -/
  ReadDir : String → Except String (List String)
  /-- Result of `ioutil.ReadFile(path)`. -/
  ReadFile : String → Except String String
  /-- Value of `*rule` after `yaml.Unmarshal(bytes, rule)` on a fresh
  `rule := new(ApplicationRule)`; the error it returns is never inspected. -/
  Unmarshal : String → ApplicationRule
  /-- The calls `filepath.WalkDir(root, fn)` makes for as long as `fn`
  returns `nil`, in order. -/
  WalkDir : String → List Visit
  /-- Result of `regexp.Compile(pattern)`. -/
  Compile : String → Except String Regexp

/-- A run-time panic. -/
inductive Panic where
  /-- Raised by `regexp.MustCompile` on a pattern that does not compile. -/
  | mustCompile (pattern err : String)
  /-- Raised by an index expression that is out of range. -/
  | indexOutOfRange
  deriving DecidableEq, Repr

/-- What is observable of a run: the logger calls, in order.  `attempt` is
not a log line but a trace marker: it records that `scanSource`, holding the
compiled expression of `rule`, called `ioutil.ReadFile(file)`. -/
inductive Event where
  | info (args : List String)
  | warn (args : List String)
  | error (args : List String)
  | fatal (args : List String)
  | print (args : List String)
  | attempt (rule : ApplicationRule) (file : String)
  deriving DecidableEq, Repr

/-- How a run ends: normal return, `os.Exit(1)` from `l.Fatal`, or a panic. -/
inductive Status where
  | ok
  | fatal
  | panic (p : Panic)
  deriving DecidableEq, Repr

/-- Log and final status of a (part of a) run. -/
structure Outcome where
  log : List Event
  status : Status
  deriving DecidableEq, Repr

/-- Sequential composition: `k` runs only if `o` returned normally. -/
def Outcome.andThen (o : Outcome) (k : Outcome) : Outcome :=
  match o.status with
  | .ok => ⟨o.log ++ k.log, k.status⟩
  | _ => o

/-! ## loadRules -/

/-- Body of the loop `for _, f := range files` of `loadRules`: a failed read
is logged and unmarshalling proceeds on the nil byte slice; the rule is
appended in every case. -/
def loadRulesLoop (w : World) (path : String) :
    List String → List Event × List ApplicationRule
  | [] => ([], [])
  | f :: files =>
    let (log, rule) :=
      match w.ReadFile (path ++ "/" ++ f) with
      | .error err => ([Event.error ["yamlFile.Get err: ", err]], w.Unmarshal "")
      | .ok yamlFile => ([], w.Unmarshal yamlFile)
    let (logs, rules) := loadRulesLoop w path files
    (log ++ logs, rule :: rules)

/-- `loadRules(path)`: the log it writes and the rules it returns.  When
`ReadDir` fails the error is logged and `files` is nil. -/
def loadRules (w : World) (path : String) : List Event × List ApplicationRule :=
  match w.ReadDir path with
  | .error err =>
    let (logs, rules) := loadRulesLoop w path []
    (Event.error ["yamlFile.Get err: ", err] :: logs, rules)
  | .ok files => loadRulesLoop w path files

/-! ## findSource -/

/-- `filepath.Ext` on the characters of a name, scanned from the end
(`rev` is the reversed name, `acc` the characters already passed): the
suffix starting at the last dot of the last path element, or empty. -/
def extRev : List Char → List Char → List Char
  | [], _ => []
  | c :: rev, acc =>
    if c = '/' then []
    else if c = '.' then c :: acc
    else extRev rev (c :: acc)

/-- `filepath.Ext(name)`. -/
def Ext (name : String) : String := String.mk (extRev name.data.reverse [])

/-- The callback of `findSource` run over the visits of the walk: a visit
with an error makes the callback return it, which ends the walk; otherwise
the path is appended when the extension of the entry's name is `ext`. -/
def findSourceWalk (ext : String) : List Visit → List String → List String
  | [], filePaths => filePaths
  | .failure _ _ :: _, filePaths => filePaths
  | .entry s name :: rest, filePaths =>
    if Ext name = ext then findSourceWalk ext rest (filePaths ++ [s])
    else findSourceWalk ext rest filePaths

/-- `findSource(dir, ext)`; the error `WalkDir` returns is discarded. -/
def findSource (w : World) (dir ext : String) : List String :=
  findSourceWalk ext (w.WalkDir dir) []

/-! ## scanSource -/

/-- The loop `for k := range result` of `scanSource`.  Its body ends with an
unconditional `break`, so only the first index of the range is ever visited.
The argument `result[k][k]` of the fifth `l.Print` is evaluated after the
first four calls were made. -/
def reportResult (rule : ApplicationRule) (file : String)
    (result : List (List String)) : Outcome :=
  match List.range result.length with
  | [] => ⟨[], .ok⟩
  | k :: _ =>
    if k = 0 then
      let printed := [Event.print ["Secrets detected!"],
        Event.print ["Rule: ", rule.RuleName],
        Event.print ["Language: ", rule.Language],
        Event.print ["File: ", file]]
      match (result.get? k).bind (fun m => m.get? k) with
      | some text => ⟨printed ++ [Event.print ["String containing secrets: ", text]], .ok⟩
      | none => ⟨printed, .panic .indexOutOfRange⟩
    else ⟨[], .ok⟩

/-- Body of the inner loop of `scanSource` for `rules[r] = rule` and
`source[s] = file`. -/
def scanFile (w : World) (rule : ApplicationRule) (file : String) : Outcome :=
  match w.Compile rule.SecretPattern with
  | .error err => ⟨[], .panic (.mustCompile rule.SecretPattern err)⟩
  | .ok re =>
    match w.ReadFile file with
    | .error err =>
      ⟨[Event.attempt rule file, Event.error ["unable to read file: %v", err]], .ok⟩
    | .ok body =>
      let result := re.FindAllStringSubmatch body
      let o := reportResult rule file result
      ⟨Event.attempt rule file :: o.log, o.status⟩

/-- The inner loop `for s := range source` of `scanSource`. -/
def scanFiles (w : World) (rule : ApplicationRule) : List String → Outcome
  | [] => ⟨[], .ok⟩
  | s :: source => (scanFile w rule s).andThen (scanFiles w rule source)

/-- `scanSource(rules, source)`. -/
def scanSource (w : World) : List ApplicationRule → List String → Outcome
  | [], _ => ⟨[], .ok⟩
  | r :: rules, source => (scanFiles w r source).andThen (scanSource w rules source)

/-! ## main -/

/-- The loop of `main` that filters the rules for each language: returns the
warnings logged, `pythonRules` and `goRules`. -/
def filterRules : List ApplicationRule →
    List Event × List ApplicationRule × List ApplicationRule
  | [] => ([], [], [])
  | rule :: rules =>
    let (log, pythonRules, goRules) := filterRules rules
    if rule.Language = "Python" then (log, rule :: pythonRules, goRules)
    else if rule.Language = "Go" then (log, pythonRules, rule :: goRules)
    else (Event.warn ["Unknown rule type %s", rule.Language] :: log, pythonRules, goRules)

/-- A guarded call `if len(rules) > 0 && len(sources) > 0 { scanSource(...) }`. -/
def scanIfAny (w : World) (rules : List ApplicationRule) (sources : List String) : Outcome :=
  if 0 < rules.length ∧ 0 < sources.length then scanSource w rules sources else ⟨[], .ok⟩

/-- `main()`.  `setupLogging` only configures the formatter. -/
def main (w : World) : Outcome :=
  let started := Event.info ["Detector started"]
  match w.Getwd with
  | .error err => ⟨[started, Event.fatal [err]], .fatal⟩
  | .ok dir =>
    let (loadLog, rules) := loadRules w (dir ++ "/rules")
    if rules.length = 0 then
      ⟨started :: loadLog ++ [Event.fatal ["No detection rules found"]], .fatal⟩
    else
      let (warnLog, pythonRules, goRules) := filterRules rules
      let pythonSources := findSource w (dir ++ "/fixtures") ".py"
      let goSources := findSource w (dir ++ "/fixtures") ".go"
      (Outcome.mk (started :: loadLog ++ warnLog) .ok).andThen
        ((scanIfAny w pythonRules pythonSources).andThen
          (scanIfAny w goRules goSources))

/-! ## Observations on a log -/

/-- One reported match: the values of the four labelled `l.Print` lines. -/
structure Detection where
  rule : String
  language : String
  file : String
  text : String
  deriving DecidableEq, Repr

/-- The five `l.Print` calls `scanSource` makes for one report. -/
def detectionLines (d : Detection) : List Event :=
  [Event.print ["Secrets detected!"],
   Event.print ["Rule: ", d.rule],
   Event.print ["Language: ", d.language],
   Event.print ["File: ", d.file],
   Event.print ["String containing secrets: ", d.text]]

/-- Second argument of the `l.Print` call at position `i` of a log. -/
def printedValue (log : List Event) (i : Nat) : String :=
  match log.get? i with
  | some (.print [_, v]) => v
  | _ => ""

/-- The detections reported in a log: every position at which a complete
five-line report starts contributes the detection it prints. -/
def detections : List Event → List Detection
  | [] => []
  | e :: log =>
    let d : Detection :=
      ⟨printedValue log 0, printedValue log 1, printedValue log 2, printedValue log 3⟩
    if detectionLines d = (e :: log).take 5 then d :: detections log
    else detections log

/-- The `l.Error` calls of a log. -/
def errors (log : List Event) : List Event :=
  log.filter (fun e => match e with
    | .error _ => true
    | _ => false)

/-- The (rule, file) pairs a run applied, in order: the pairs for which the
rule's compiled expression was at hand and the file was opened. -/
def applied (log : List Event) : List (ApplicationRule × String) :=
  log.filterMap (fun e => match e with
    | .attempt r f => some (r, f)
    | _ => none)

/-! ## A concrete world -/

/-- Upper-case letter or digit: the class `[0-9A-Z]`. -/
def isKeyChar (c : Char) : Bool :=
  ('0' ≤ c ∧ c ≤ '9') ∨ ('A' ≤ c ∧ c ≤ 'Z')

/-- Does a match of `AKIA[0-9A-Z]{16}` start at the head of `cs`? -/
def akiaAt (cs : List Char) : Bool :=
  cs.take 4 = ['A', 'K', 'I', 'A'] ∧ ((cs.drop 4).take 16).length = 16 ∧
    ((cs.drop 4).take 16).all isKeyChar

/-- All successive non-overlapping matches of `AKIA[0-9A-Z]{16}`, leftmost
first; `skip` counts the characters still covered by the previous match. -/
def akiaScan : Nat → List Char → List (List String)
  | _, [] => []
  | skip + 1, _ :: cs => akiaScan skip cs
  | 0, c :: cs =>
    if akiaAt (c :: cs) then [String.mk ((c :: cs).take 20)] :: akiaScan 19 cs
    else akiaScan 0 cs

/-- The expression `AKIA[0-9A-Z]{16}`, compiled. -/
def akiaRegexp : Regexp where
  FindAllStringSubmatch s := akiaScan 0 s.data
  submatch_ne_nil s := by
    have key : ∀ (cs : List Char) (skip : Nat), ∀ m ∈ akiaScan skip cs, m ≠ [] := by
      intro cs
      induction cs with
      | nil => intro skip m hm; simp [akiaScan] at hm
      | cons c cs ih =>
        intro skip m hm
        cases skip with
        | succ k => rw [akiaScan] at hm; exact ih k m hm
        | zero =>
          rw [akiaScan] at hm
          split at hm
          · rcases List.mem_cons.mp hm with h | h
            · subst h; simp
            · exact ih 19 m h
          · exact ih 0 m hm
    exact key s.data 0

/-- The empty expression, compiled: it matches the empty string at every
position of the input, the end included, and has no capture group. -/
def emptyRegexp : Regexp where
  FindAllStringSubmatch s := List.replicate (s.length + 1) [""]
  submatch_ne_nil _ m hm := by
    rw [List.eq_of_mem_replicate hm]; simp

/-- Two lines, each assigning the same access key. -/
def credsBody : String :=
  "key = \"AKIA1234567890ABCDEF\"\nkey = \"AKIA1234567890ABCDEF\"\n"

/-- The rule of the access-key scenario. -/
def awsRule : ApplicationRule :=
  ⟨"AKIA1234567890ABCDEF", "Python", "boto3", "AWSKey", "AKIA[0-9A-Z]{16}"⟩

/-- A world over working directory `/w`, given by tables: the listing of
`/w/rules` (or the error of listing it), the readable files with their
content, the rule each YAML text decodes to, and the visits of the walk of
`/w/fixtures`.  Of all patterns only `AKIA[0-9A-Z]{16}` and the empty one
compile. -/
def tableWorld (rulesDir : Except String (List String))
    (files : List (String × String)) (yaml : List (String × ApplicationRule))
    (walk : List Visit) : World where
  Getwd := .ok "/w"
  ReadDir p := if p = "/w/rules" then rulesDir else .error "no such file or directory"
  ReadFile p :=
    match files.lookup p with
    | some body => .ok body
    | none => .error "no such file or directory"
  Unmarshal text :=
    match yaml.lookup text with
    | some rule => rule
    | none => ApplicationRule.zero
  WalkDir p := if p = "/w/fixtures" then walk else [.failure p "no such file or directory"]
  Compile pattern :=
    if pattern = "AKIA[0-9A-Z]{16}" then .ok akiaRegexp
    else if pattern = "" then .ok emptyRegexp
    else .error "error parsing regexp"

/-- Only `creds.py` exists, holding `credsBody`. -/
def credsWorld : World :=
  tableWorld (.ok []) [("creds.py", credsBody)] [] []

/-! ## Reference readings of the specification -/

/-- Does `regexp.Compile` accept the pattern? -/
def compiles (w : World) (pattern : String) : Bool :=
  match w.Compile pattern with
  | .ok _ => true
  | .error _ => false

/-- Can the file be read? -/
def readable (w : World) (file : String) : Bool :=
  match w.ReadFile file with
  | .ok _ => true
  | .error _ => false

/-- The detection reporting the whole text `m[0]` of a match `m` of `rule`
in `file`. -/
def detectionOf (rule : ApplicationRule) (file : String) (m : List String) : Detection :=
  ⟨rule.RuleName, rule.Language, file, m.headD ""⟩

/-- All-matches reading: one detection per match of the rule's pattern in
the file's content, in match order. -/
def allMatchesReport (w : World) (rule : ApplicationRule) (file : String) : List Detection :=
  match w.Compile rule.SecretPattern, w.ReadFile file with
  | .ok re, .ok body => (re.FindAllStringSubmatch body).map (detectionOf rule file)
  | _, _ => []

/-- First-match reading: the detection of the leftmost match only, and
nothing when there is no match. -/
def firstMatchReport (w : World) (rule : ApplicationRule) (file : String) : List Detection :=
  (allMatchesReport w rule file).take 1

/-- The pairs of a rule list and a source list, ordered by rule position and
then by file position. -/
def pairsInOrder (rules : List ApplicationRule) (source : List String) :
    List (ApplicationRule × String) :=
  rules.flatMap (fun r => source.map (fun f => (r, f)))

/-- The index pairs `(r, s)` with `r < m` and `s < n`, ordered by `r` and
then by `s`. -/
def indexPairs (m n : Nat) : List (Nat × Nat) :=
  (List.range m).flatMap (fun r => (List.range n).map (fun s => (r, s)))

/-- The first-match report of the pair `(rules[r], source[s])`. -/
def reportAt (w : World) (rules : List ApplicationRule) (source : List String)
    (p : Nat × Nat) : List Detection :=
  match rules.get? p.1, source.get? p.2 with
  | some rule, some file => firstMatchReport w rule file
  | _, _ => []

/-- Order on index pairs: by rule index, then by file index. -/
def pairBefore (a b : Nat × Nat) : Prop :=
  a.1 < b.1 ∨ (a.1 = b.1 ∧ a.2 < b.2)

/-- The root of a walk could not be read: either the first visit reports
the failed `Lstat` of the root (it does not exist), or the root entry, named
`fixtures`, is visited and the next visit reports that reading it failed. -/
def rootFailed : List Visit → Bool
  | .failure _ _ :: _ => true
  | .entry _ name :: .failure _ _ :: _ => decide (name = "fixtures")
  | _ => false

/-- The log of a scan none of whose patterns fails to compile. -/
def scanLog (w : World) (rules : List ApplicationRule) (source : List String) : List Event :=
  rules.flatMap (fun r => source.flatMap (fun f => (scanFile w r f).log))

/-! ## Auxiliary lemmas -/

theorem andThen_ok (l : List Event) (k : Outcome) :
    (Outcome.mk l .ok).andThen k = ⟨l ++ k.log, k.status⟩ := rfl

theorem andThen_of_ok (o k : Outcome) (h : o.status = .ok) :
    o.andThen k = ⟨o.log ++ k.log, k.status⟩ := by
  cases o with
  | mk l st => simp only at h; subst h; rfl

theorem andThen_of_panic (o k : Outcome) (p : Panic) (h : o.status = .panic p) :
    o.andThen k = o := by
  cases o with
  | mk l st => simp only at h; subst h; rfl

theorem reportResult_nil (rule : ApplicationRule) (file : String) :
    reportResult rule file [] = ⟨[], .ok⟩ := rfl

theorem reportResult_cons (rule : ApplicationRule) (file : String)
    (text : String) (groups : List String) (rest : List (List String)) :
    reportResult rule file ((text :: groups) :: rest) =
      ⟨detectionLines (detectionOf rule file (text :: groups)), .ok⟩ := by
  simp [reportResult, List.range_succ_eq_map, detectionLines, detectionOf]

/-- With a result as `FindAllStringSubmatch` returns it, the report loop
prints the first-match detection, if any, and returns. -/
theorem reportResult_eq (re : Regexp) (rule : ApplicationRule) (file body : String) :
    reportResult rule file (re.FindAllStringSubmatch body) =
      ⟨((re.FindAllStringSubmatch body).take 1).flatMap
        (fun m => detectionLines (detectionOf rule file m)), .ok⟩ := by
  have hne := re.submatch_ne_nil body
  cases hres : re.FindAllStringSubmatch body with
  | nil => simp [reportResult_nil]
  | cons m rest =>
    cases m with
    | nil => exact absurd rfl (hne [] (by simp [hres]))
    | cons text groups => simp [reportResult_cons]

/-- The body of the inner loop under a pattern that compiles. -/
theorem scanFile_of_compile (w : World) (rule : ApplicationRule) (file : String)
    (re : Regexp) (hc : w.Compile rule.SecretPattern = .ok re) :
    scanFile w rule file =
      match w.ReadFile file with
      | .error err =>
        ⟨[Event.attempt rule file, Event.error ["unable to read file: %v", err]], .ok⟩
      | .ok body =>
        ⟨Event.attempt rule file :: ((re.FindAllStringSubmatch body).take 1).flatMap
          (fun m => detectionLines (detectionOf rule file m)), .ok⟩ := by
  unfold scanFile
  rw [hc]
  cases w.ReadFile file with
  | error err => rfl
  | ok body => simp only [reportResult_eq]

theorem compiles_iff (w : World) (pattern : String) :
    compiles w pattern = true ↔ ∃ re, w.Compile pattern = .ok re := by
  unfold compiles
  cases w.Compile pattern with
  | error e => simp
  | ok re => simp

theorem scanFile_status (w : World) (rule : ApplicationRule) (file : String)
    (hc : compiles w rule.SecretPattern = true) : (scanFile w rule file).status = .ok := by
  obtain ⟨re, hre⟩ := (compiles_iff w _).mp hc
  rw [scanFile_of_compile w rule file re hre]
  cases w.ReadFile file <;> rfl

theorem scanFiles_eq (w : World) (rule : ApplicationRule) (source : List String)
    (hc : compiles w rule.SecretPattern = true) :
    scanFiles w rule source = ⟨source.flatMap (fun f => (scanFile w rule f).log), .ok⟩ := by
  induction source with
  | nil => rfl
  | cons s source ih =>
    rw [scanFiles, andThen_of_ok _ _ (scanFile_status w rule s hc), ih]
    simp

theorem scanSource_eq (w : World) (rules : List ApplicationRule) (source : List String)
    (hc : ∀ r ∈ rules, compiles w r.SecretPattern = true) :
    scanSource w rules source =
      ⟨rules.flatMap (fun r => source.flatMap (fun f => (scanFile w r f).log)), .ok⟩ := by
  induction rules with
  | nil => cases source <;> rfl
  | cons r rules ih =>
    rw [scanSource, scanFiles_eq w r source (hc r (by simp)), andThen_ok,
      ih (fun r hr => hc r (by simp [hr]))]
    simp

/-! ### Observations distribute over the blocks of a scan -/

theorem detections_skip (e : Event) (log : List Event)
    (he : e ≠ Event.print ["Secrets detected!"]) :
    detections (e :: log) = detections log := by
  rw [detections]
  have : ¬ detectionLines ⟨printedValue log 0, printedValue log 1, printedValue log 2,
      printedValue log 3⟩ = (e :: log).take 5 := by
    intro h
    simp only [detectionLines, List.take_succ_cons, List.cons.injEq] at h
    exact he h.1.symm
  simp only [this, if_false]

theorem detections_lines (d : Detection) (log : List Event) :
    detections (detectionLines d ++ log) = d :: detections log := by
  cases d with
  | mk rule language file text =>
    simp only [detectionLines, List.cons_append, List.nil_append]
    rw [detections]
    simp only [printedValue, List.get?_cons_zero, List.get?_cons_succ, List.take_succ_cons,
      List.take_zero, detectionLines, if_true]
    rw [detections_skip _ _ (by simp), detections_skip _ _ (by simp),
      detections_skip _ _ (by simp), detections_skip _ _ (by simp)]

theorem detections_scanFile (w : World) (rule : ApplicationRule) (file : String)
    (log : List Event) (hc : compiles w rule.SecretPattern = true) :
    detections ((scanFile w rule file).log ++ log) =
      firstMatchReport w rule file ++ detections log := by
  obtain ⟨re, hre⟩ := (compiles_iff w _).mp hc
  rw [scanFile_of_compile w rule file re hre]
  unfold firstMatchReport allMatchesReport
  rw [hre]
  cases w.ReadFile file with
  | error err =>
    simp only [List.cons_append, List.nil_append]
    rw [detections_skip _ _ (by simp), detections_skip _ _ (by simp)]
    simp
  | ok body =>
    simp only [List.cons_append]
    rw [detections_skip _ _ (by simp)]
    cases re.FindAllStringSubmatch body with
    | nil => simp
    | cons m rest => simp [detections_lines]

theorem detections_files (w : World) (rule : ApplicationRule) (source : List String)
    (log : List Event) (hc : compiles w rule.SecretPattern = true) :
    detections (source.flatMap (fun f => (scanFile w rule f).log) ++ log) =
      source.flatMap (firstMatchReport w rule) ++ detections log := by
  induction source with
  | nil => simp
  | cons s source ih =>
    simp only [List.flatMap_cons, List.append_assoc]
    rw [detections_scanFile w rule s _ hc, ih]

theorem detections_rules (w : World) (rules : List ApplicationRule) (source : List String)
    (log : List Event) (hc : ∀ r ∈ rules, compiles w r.SecretPattern = true) :
    detections (rules.flatMap (fun r => source.flatMap (fun f => (scanFile w r f).log)) ++ log) =
      rules.flatMap (fun r => source.flatMap (firstMatchReport w r)) ++ detections log := by
  induction rules with
  | nil => simp
  | cons r rules ih =>
    simp only [List.flatMap_cons, List.append_assoc]
    rw [detections_files w r source _ (hc r (by simp)), ih (fun r hr => hc r (by simp [hr]))]

/-- The detections of a scan whose patterns all compile: per pair, in rule
order then file order, the first-match report. -/
theorem detections_scanSource (w : World) (rules : List ApplicationRule)
    (source : List String) (hc : ∀ r ∈ rules, compiles w r.SecretPattern = true) :
    detections (scanSource w rules source).log =
      rules.flatMap (fun r => source.flatMap (firstMatchReport w r)) := by
  rw [scanSource_eq w rules source hc]
  have h := detections_rules w rules source [] hc
  simpa [detections] using h

theorem applied_append (a b : List Event) : applied (a ++ b) = applied a ++ applied b := by
  simp [applied]

theorem applied_detectionLines (d : Detection) : applied (detectionLines d) = [] := rfl

theorem applied_flatMap {α : Type} (l : List α) (f : α → List Event) :
    applied (l.flatMap f) = l.flatMap (fun a => applied (f a)) := by
  induction l with
  | nil => rfl
  | cons a l ih => simp [applied_append, ih]

theorem applied_scanFile (w : World) (rule : ApplicationRule) (file : String)
    (hc : compiles w rule.SecretPattern = true) :
    applied (scanFile w rule file).log = [(rule, file)] := by
  obtain ⟨re, hre⟩ := (compiles_iff w _).mp hc
  rw [scanFile_of_compile w rule file re hre]
  cases w.ReadFile file with
  | error err => rfl
  | ok body =>
    have h : applied (((re.FindAllStringSubmatch body).take 1).flatMap
        (fun m => detectionLines (detectionOf rule file m))) = [] := by
      rw [applied_flatMap]; simp [applied_detectionLines]
    show applied (Event.attempt rule file :: _) = [(rule, file)]
    rw [show ∀ l, applied (Event.attempt rule file :: l) = (rule, file) :: applied l from
      fun l => rfl, h]

theorem applied_files (w : World) (rule : ApplicationRule) (source : List String)
    (hc : compiles w rule.SecretPattern = true) :
    applied (source.flatMap (fun f => (scanFile w rule f).log)) =
      source.map (fun f => (rule, f)) := by
  induction source with
  | nil => rfl
  | cons s source ih =>
    simp only [List.flatMap_cons, applied_append, applied_scanFile w rule s hc, ih]
    rfl

/-- The pairs a scan applies when all patterns compile: every pair, ordered
by rule and then by file. -/
theorem applied_scanSource (w : World) (rules : List ApplicationRule)
    (source : List String) (hc : ∀ r ∈ rules, compiles w r.SecretPattern = true) :
    applied (scanSource w rules source).log = pairsInOrder rules source := by
  rw [scanSource_eq w rules source hc]
  unfold pairsInOrder
  induction rules with
  | nil => rfl
  | cons r rules ih =>
    simp only [List.flatMap_cons, applied_append]
    rw [ih (fun r hr => hc r (by simp [hr])), applied_files w r source (hc r (by simp))]

theorem andThen_status (o k : Outcome) :
    (o.andThen k).status = if o.status = .ok then k.status else o.status := by
  cases o with
  | mk l st => cases st <;> rfl

theorem reportResult_status (rule : ApplicationRule) (file : String)
    (result : List (List String)) (hne : ∀ m ∈ result, m ≠ []) :
    (reportResult rule file result).status = .ok := by
  cases result with
  | nil => rfl
  | cons m rest =>
    cases m with
    | nil => exact absurd rfl (hne [] (by simp))
    | cons text groups => rw [reportResult_cons]

theorem scanFile_no_index_panic (w : World) (rule : ApplicationRule) (file : String) :
    (scanFile w rule file).status ≠ .panic .indexOutOfRange := by
  unfold scanFile
  cases w.Compile rule.SecretPattern with
  | error err => simp
  | ok re =>
    cases w.ReadFile file with
    | error err => simp
    | ok body =>
      simp [reportResult_status rule file _ (re.submatch_ne_nil body)]

theorem scanFiles_no_index_panic (w : World) (rule : ApplicationRule)
    (source : List String) :
    (scanFiles w rule source).status ≠ .panic .indexOutOfRange := by
  induction source with
  | nil => simp [scanFiles]
  | cons s source ih =>
    rw [scanFiles, andThen_status]
    split
    · exact ih
    · exact scanFile_no_index_panic w rule s

theorem scanSource_no_index_panic (w : World) (rules : List ApplicationRule)
    (source : List String) :
    (scanSource w rules source).status ≠ .panic .indexOutOfRange := by
  induction rules with
  | nil => cases source <;> simp [scanSource]
  | cons r rules ih =>
    rw [scanSource, andThen_status]
    split
    · exact ih
    · exact scanFiles_no_index_panic w r source

theorem scanSource_single (w : World) (rule : ApplicationRule) (file : String) :
    scanSource w [rule] [file] = scanFile w rule file := by
  simp only [scanSource, scanFiles]
  cases h : (scanFile w rule file).status with
  | ok => rw [andThen_of_ok _ _ (by rw [andThen_of_ok _ _ h]), andThen_of_ok _ _ h]; simp [← h]
  | fatal =>
    have : ∀ o k : Outcome, o.status = .fatal → o.andThen k = o := by
      intro o k ho; cases o with
      | mk l st => simp only at ho; subst ho; rfl
    rw [this _ _ h, this _ _ h]
  | panic p => rw [andThen_of_panic _ _ p h, andThen_of_panic _ _ p h]

theorem firstMatchReport_unreadable (w : World) (rule : ApplicationRule) (file : String)
    (hf : readable w file = false) : firstMatchReport w rule file = [] := by
  unfold firstMatchReport allMatchesReport
  unfold readable at hf
  cases hr : w.ReadFile file with
  | ok body => rw [hr] at hf; simp at hf
  | error err => cases w.Compile rule.SecretPattern <;> rfl

theorem flatMap_eq_range {α β : Type} (l : List α) (f : α → List β) :
    l.flatMap f = (List.range l.length).flatMap (fun i =>
      match l.get? i with
      | some a => f a
      | none => []) := by
  induction l with
  | nil => rfl
  | cons a l ih =>
    rw [List.length_cons, List.range_succ_eq_map, List.flatMap_cons, List.flatMap_cons,
      List.flatMap_map, ih]
    rfl

theorem indexPairs_pairwise (m n : Nat) : (indexPairs m n).Pairwise pairBefore := by
  unfold indexPairs
  rw [List.pairwise_flatMap]
  constructor
  · intro r _
    rw [List.pairwise_map]
    exact (List.pairwise_lt_range n).imp (fun h => Or.inr ⟨rfl, h⟩)
  · refine (List.pairwise_lt_range m).imp ?_
    intro a b hab x hx y hy
    simp only [List.mem_map] at hx hy
    obtain ⟨_, _, rfl⟩ := hx
    obtain ⟨_, _, rfl⟩ := hy
    exact Or.inl hab

theorem firstMatchReport_length (w : World) (rule : ApplicationRule) (file : String) :
    (firstMatchReport w rule file).length ≤ 1 := by
  unfold firstMatchReport
  simp [List.length_take]

theorem compiles_false_iff (w : World) (pattern : String) :
    compiles w pattern = false ↔ ∃ err, w.Compile pattern = .error err := by
  unfold compiles
  cases w.Compile pattern with
  | error e => simp
  | ok re => simp

theorem scanFiles_of_not_compile (w : World) (rule : ApplicationRule) (s : String)
    (source : List String) (err : String)
    (hc : w.Compile rule.SecretPattern = .error err) :
    scanFiles w rule (s :: source) = ⟨[], .panic (.mustCompile rule.SecretPattern err)⟩ := by
  have h : scanFile w rule s = ⟨[], .panic (.mustCompile rule.SecretPattern err)⟩ := by
    unfold scanFile; rw [hc]
  rw [scanFiles, h]
  rfl

theorem andThen_assoc (a b c : Outcome) :
    (a.andThen b).andThen c = a.andThen (b.andThen c) := by
  cases a with
  | mk la sa =>
    cases b with
    | mk lb sb => cases sa <;> cases sb <;> simp [Outcome.andThen]

theorem scanSource_append (w : World) (pre post : List ApplicationRule)
    (source : List String) :
    scanSource w (pre ++ post) source =
      (scanSource w pre source).andThen (scanSource w post source) := by
  induction pre with
  | nil =>
    have h : scanSource w [] source = ⟨[], .ok⟩ := by cases source <;> rfl
    rw [h, andThen_ok]; rfl
  | cons r pre ih =>
    rw [List.cons_append, scanSource, scanSource, ih, andThen_assoc]

/-! ### Lemmas on `main` -/

theorem loadRulesLoop_rules_length (w : World) (path : String) (files : List String) :
    (loadRulesLoop w path files).2.length = files.length := by
  induction files with
  | nil => rfl
  | cons f files ih => simp [loadRulesLoop, ih]

/-- Every entry of the listing that can be read contributes the rule its
content decodes to. -/
theorem loadRulesLoop_mem (w : World) (path : String) (files : List String)
    (name yaml : String) (hname : name ∈ files)
    (hread : w.ReadFile (path ++ "/" ++ name) = .ok yaml) :
    w.Unmarshal yaml ∈ (loadRulesLoop w path files).2 := by
  induction files with
  | nil => simp at hname
  | cons f files ih =>
    simp only [loadRulesLoop]
    rcases List.mem_cons.mp hname with h | h
    · subst h
      rw [hread]
      simp
    · exact List.mem_cons_of_mem _ (ih h)

theorem loadRules_mem (w : World) (path : String) (files : List String)
    (name yaml : String) (hdir : w.ReadDir path = .ok files) (hname : name ∈ files)
    (hread : w.ReadFile (path ++ "/" ++ name) = .ok yaml) :
    w.Unmarshal yaml ∈ (loadRules w path).2 := by
  unfold loadRules
  rw [hdir]
  exact loadRulesLoop_mem w path files name yaml hname hread

theorem loadRulesLoop_log (w : World) (path : String) (files : List String) :
    ∀ e ∈ (loadRulesLoop w path files).1, ∃ args, e = Event.error args := by
  induction files with
  | nil => intro e he; simp [loadRulesLoop] at he
  | cons f files ih =>
    intro e he
    simp only [loadRulesLoop] at he
    cases hr : w.ReadFile (path ++ "/" ++ f) with
    | error err =>
      rw [hr] at he
      simp only [List.singleton_append, List.mem_cons] at he
      rcases he with h | h
      · exact ⟨_, h⟩
      · exact ih e h
    | ok body =>
      rw [hr] at he
      simp only [List.nil_append] at he
      exact ih e he

theorem loadRules_log (w : World) (path : String) :
    ∀ e ∈ (loadRules w path).1, ∃ args, e = Event.error args := by
  unfold loadRules
  cases w.ReadDir path with
  | error err =>
    intro e he
    simp only [loadRulesLoop, List.mem_cons, List.mem_nil_iff, or_false] at he
    exact ⟨_, he⟩
  | ok files => exact loadRulesLoop_log w path files

theorem loadRules_rules_eq_nil (w : World) (path : String) :
    (loadRules w path).2 = [] ↔
      match w.ReadDir path with
      | .ok files => files = []
      | .error _ => True := by
  unfold loadRules
  cases w.ReadDir path with
  | error err => simp [loadRulesLoop]
  | ok files =>
    simp only
    rw [← List.length_eq_zero, loadRulesLoop_rules_length, List.length_eq_zero]

theorem filterRules_log (rules : List ApplicationRule) :
    ∀ e ∈ (filterRules rules).1, ∃ args, e = Event.warn args := by
  induction rules with
  | nil => intro e he; simp [filterRules] at he
  | cons r rules ih =>
    intro e he
    simp only [filterRules] at he
    split at he
    · exact ih e he
    · split at he
      · exact ih e he
      · simp only [List.mem_cons] at he
        rcases he with h | h
        · exact ⟨_, h⟩
        · exact ih e h

theorem filterRules_python (rules : List ApplicationRule) :
    (filterRules rules).2.1 = rules.filter (fun r => decide (r.Language = "Python")) := by
  induction rules with
  | nil => rfl
  | cons r rules ih =>
    simp only [filterRules]
    by_cases hp : r.Language = "Python"
    · simp [hp, ih]
    · by_cases hg : r.Language = "Go"
      · simp [hg, ih]
      · simp [hp, hg, ih]

theorem filterRules_go (rules : List ApplicationRule) :
    (filterRules rules).2.2 = rules.filter (fun r => decide (r.Language = "Go")) := by
  induction rules with
  | nil => rfl
  | cons r rules ih =>
    simp only [filterRules]
    by_cases hp : r.Language = "Python"
    · simp [hp, ih]
    · by_cases hg : r.Language = "Go"
      · simp [hg, ih]
      · simp [hp, hg, ih]

theorem scanIfAny_eq (w : World) (rules : List ApplicationRule) (source : List String)
    (hc : ∀ r ∈ rules, compiles w r.SecretPattern = true) :
    scanIfAny w rules source = ⟨scanLog w rules source, .ok⟩ := by
  unfold scanIfAny scanLog
  split
  · exact scanSource_eq w rules source hc
  · rename_i h
    rw [not_and_or] at h
    rcases h with h | h
    · have : rules = [] := List.length_eq_zero.mp (by omega)
      subst this; rfl
    · have : source = [] := List.length_eq_zero.mp (by omega)
      subst this; simp

/-- The run of `main` when the working directory is known, at least one rule
record was loaded, and the patterns of all Python and Go rules compile. -/
theorem main_eq (w : World) (dir : String) (hd : w.Getwd = .ok dir)
    (hne : (loadRules w (dir ++ "/rules")).2 ≠ [])
    (hc : ∀ r ∈ (loadRules w (dir ++ "/rules")).2,
      r.Language = "Python" ∨ r.Language = "Go" → compiles w r.SecretPattern = true) :
    main w =
      ⟨(Event.info ["Detector started"] :: (loadRules w (dir ++ "/rules")).1 ++
          (filterRules (loadRules w (dir ++ "/rules")).2).1) ++
        (scanLog w ((loadRules w (dir ++ "/rules")).2.filter
            (fun r => decide (r.Language = "Python")))
          (findSource w (dir ++ "/fixtures") ".py") ++
         scanLog w ((loadRules w (dir ++ "/rules")).2.filter
            (fun r => decide (r.Language = "Go")))
          (findSource w (dir ++ "/fixtures") ".go")), .ok⟩ := by
  unfold main
  rw [hd]
  simp only
  have hlen : ¬ (loadRules w (dir ++ "/rules")).2.length = 0 := by
    rw [List.length_eq_zero]; exact hne
  rw [if_neg hlen, filterRules_python, filterRules_go,
    scanIfAny_eq w _ _ (fun r hr => by
      rw [List.mem_filter] at hr
      exact hc r hr.1 (Or.inl (by simpa using hr.2))),
    scanIfAny_eq w _ _ (fun r hr => by
      rw [List.mem_filter] at hr
      exact hc r hr.1 (Or.inr (by simpa using hr.2)))]
  rfl

theorem applied_eq_nil (log : List Event)
    (h : ∀ e ∈ log, ∀ r f, e ≠ Event.attempt r f) : applied log = [] := by
  induction log with
  | nil => rfl
  | cons e log ih =>
    have ht := ih (fun e he => h e (by simp [he]))
    cases e with
    | attempt r f => exact absurd rfl (h _ (by simp) r f)
    | info a => exact ht
    | warn a => exact ht
    | error a => exact ht
    | fatal a => exact ht
    | print a => exact ht

theorem detections_drop (pre log : List Event)
    (h : ∀ e ∈ pre, e ≠ Event.print ["Secrets detected!"]) :
    detections (pre ++ log) = detections log := by
  induction pre with
  | nil => rfl
  | cons e pre ih =>
    rw [List.cons_append, detections_skip _ _ (h e (by simp)),
      ih (fun e he => h e (by simp [he]))]

/-- The events `main` logs ahead of the scans are `Info`, `Error` and `Warn`
calls. -/
theorem main_prelude (w : World) (path : String) (rules : List ApplicationRule) :
    ∀ e ∈ Event.info ["Detector started"] :: (loadRules w path).1 ++ (filterRules rules).1,
      (∀ r f, e ≠ Event.attempt r f) ∧ e ≠ Event.print ["Secrets detected!"] ∧
        ∀ args, e ≠ Event.fatal args := by
  intro e he
  simp only [List.cons_append, List.mem_cons, List.mem_append] at he
  rcases he with h | h | h
  · subst h; simp
  · obtain ⟨args, rfl⟩ := loadRules_log w path e h; simp
  · obtain ⟨args, rfl⟩ := filterRules_log rules e h; simp

theorem applied_scanLog (w : World) (rules : List ApplicationRule) (source : List String)
    (hc : ∀ r ∈ rules, compiles w r.SecretPattern = true) :
    applied (scanLog w rules source) = pairsInOrder rules source := by
  have h := applied_scanSource w rules source hc
  rw [scanSource_eq w rules source hc] at h
  exact h

theorem mem_pairsInOrder (rules : List ApplicationRule) (source : List String)
    (r : ApplicationRule) (f : String) :
    (r, f) ∈ pairsInOrder rules source ↔ r ∈ rules ∧ f ∈ source := by
  unfold pairsInOrder
  simp only [List.mem_flatMap, List.mem_map, Prod.mk.injEq]
  constructor
  · rintro ⟨a, ha, b, hb, rfl, rfl⟩; exact ⟨ha, hb⟩
  · rintro ⟨hr, hf⟩; exact ⟨r, hr, f, hf, rfl, rfl⟩

theorem main_no_rules (w : World) (dir : String) (hd : w.Getwd = .ok dir)
    (hnil : (loadRules w (dir ++ "/rules")).2 = []) :
    main w = ⟨Event.info ["Detector started"] :: (loadRules w (dir ++ "/rules")).1 ++
      [Event.fatal ["No detection rules found"]], .fatal⟩ := by
  unfold main
  rw [hd]
  simp only
  rw [if_pos (by rw [hnil]; rfl)]

theorem scanFile_not_fatal (w : World) (rule : ApplicationRule) (file : String) :
    (scanFile w rule file).status ≠ .fatal := by
  unfold scanFile
  cases w.Compile rule.SecretPattern with
  | error err => simp
  | ok re =>
    cases w.ReadFile file with
    | error err => simp
    | ok body => simp [reportResult_status rule file _ (re.submatch_ne_nil body)]

theorem scanFiles_not_fatal (w : World) (rule : ApplicationRule) (source : List String) :
    (scanFiles w rule source).status ≠ .fatal := by
  induction source with
  | nil => simp [scanFiles]
  | cons s source ih =>
    rw [scanFiles, andThen_status]
    split
    · exact ih
    · exact scanFile_not_fatal w rule s

theorem scanSource_not_fatal (w : World) (rules : List ApplicationRule)
    (source : List String) : (scanSource w rules source).status ≠ .fatal := by
  induction rules with
  | nil => cases source <;> simp [scanSource]
  | cons r rules ih =>
    rw [scanSource, andThen_status]
    split
    · exact ih
    · exact scanFiles_not_fatal w r source

theorem scanIfAny_not_fatal (w : World) (rules : List ApplicationRule)
    (source : List String) : (scanIfAny w rules source).status ≠ .fatal := by
  unfold scanIfAny
  split
  · exact scanSource_not_fatal w rules source
  · simp

theorem main_status_of_rules (w : World) (dir : String) (hd : w.Getwd = .ok dir)
    (hne : (loadRules w (dir ++ "/rules")).2 ≠ []) : (main w).status ≠ .fatal := by
  unfold main
  rw [hd]
  simp only
  rw [if_neg (by rw [List.length_eq_zero]; exact hne), andThen_ok]
  simp only
  rw [andThen_status]
  split
  · exact scanIfAny_not_fatal w _ _
  · exact scanIfAny_not_fatal w _ _

theorem findSource_of_rootFailed (w : World) (dir ext : String)
    (hext : Ext "fixtures" ≠ ext) (h : rootFailed (w.WalkDir dir) = true) :
    findSource w dir ext = [] := by
  unfold findSource
  cases hv : w.WalkDir dir with
  | nil => rfl
  | cons v rest =>
    rw [hv] at h
    cases v with
    | failure p e => rfl
    | entry p name =>
      cases rest with
      | nil => simp [rootFailed] at h
      | cons v2 rest2 =>
        cases v2 with
        | entry p2 n2 => simp [rootFailed] at h
        | failure p2 e2 =>
          have hn : name = "fixtures" := by simpa [rootFailed] using h
          subst hn
          simp [findSourceWalk, hext]

theorem scanIfAny_no_source (w : World) (rules : List ApplicationRule) :
    scanIfAny w rules [] = ⟨[], .ok⟩ := by
  simp [scanIfAny]

theorem detections_scanLog (w : World) (rules : List ApplicationRule)
    (source : List String) (log : List Event)
    (hc : ∀ r ∈ rules, compiles w r.SecretPattern = true) :
    detections (scanLog w rules source ++ log) =
      rules.flatMap (fun r => source.flatMap (firstMatchReport w r)) ++ detections log :=
  detections_rules w rules source log hc

/-- The detections of a run of `main` under the hypotheses of `main_eq`. -/
theorem detections_main (w : World) (dir : String) (hd : w.Getwd = .ok dir)
    (hne : (loadRules w (dir ++ "/rules")).2 ≠ [])
    (hc : ∀ r ∈ (loadRules w (dir ++ "/rules")).2,
      r.Language = "Python" ∨ r.Language = "Go" → compiles w r.SecretPattern = true) :
    detections (main w).log =
      ((loadRules w (dir ++ "/rules")).2.filter (fun r => decide (r.Language = "Python"))).flatMap
          (fun r => (findSource w (dir ++ "/fixtures") ".py").flatMap (firstMatchReport w r)) ++
        ((loadRules w (dir ++ "/rules")).2.filter (fun r => decide (r.Language = "Go"))).flatMap
          (fun r => (findSource w (dir ++ "/fixtures") ".go").flatMap (firstMatchReport w r)) := by
  rw [main_eq w dir hd hne hc]
  simp only
  rw [detections_drop _ _ (fun e he => (main_prelude w _ _ e he).2.1),
    detections_scanLog w _ _ _ (fun r hr => by
      rw [List.mem_filter] at hr
      exact hc r hr.1 (Or.inl (by simpa using hr.2)))]
  have h := detections_scanLog w
    ((loadRules w (dir ++ "/rules")).2.filter (fun r => decide (r.Language = "Go")))
    (findSource w (dir ++ "/fixtures") ".go") [] (fun r hr => by
      rw [List.mem_filter] at hr
      exact hc r hr.1 (Or.inr (by simpa using hr.2)))
  rw [List.append_nil] at h
  rw [h]
  simp [detections]

/-- Which pairs `main` applies when the patterns of the loaded Python and Go
rules compile. -/
theorem applied_main (w : World) (dir : String) (hd : w.Getwd = .ok dir)
    (hc : ∀ r ∈ (loadRules w (dir ++ "/rules")).2,
      r.Language = "Python" ∨ r.Language = "Go" → compiles w r.SecretPattern = true)
    (R : ApplicationRule) (F : String) :
    (R, F) ∈ applied (main w).log ↔
      R ∈ (loadRules w (dir ++ "/rules")).2 ∧
        ((R.Language = "Python" ∧ F ∈ findSource w (dir ++ "/fixtures") ".py") ∨
         (R.Language = "Go" ∧ F ∈ findSource w (dir ++ "/fixtures") ".go")) := by
  by_cases hnil : (loadRules w (dir ++ "/rules")).2 = []
  · rw [main_no_rules w dir hd hnil, hnil]
    have : applied (Event.info ["Detector started"] :: (loadRules w (dir ++ "/rules")).1 ++
        [Event.fatal ["No detection rules found"]]) = [] := by
      apply applied_eq_nil
      intro e he r f
      simp only [List.cons_append, List.mem_cons, List.mem_append, List.mem_nil_iff,
        or_false] at he
      rcases he with h | h | h
      · subst h; simp
      · obtain ⟨args, rfl⟩ := loadRules_log w _ e h; simp
      · subst h; simp
    simp only []
    rw [this]
    simp
  · rw [main_eq w dir hd hnil hc]
    simp only
    rw [applied_append (Event.info ["Detector started"] :: (loadRules w (dir ++ "/rules")).1 ++
        (filterRules (loadRules w (dir ++ "/rules")).2).1),
      applied_eq_nil _ (fun e he => (main_prelude w _ _ e he).1), applied_append,
      applied_scanLog w _ _ (fun r hr => by
        rw [List.mem_filter] at hr
        exact hc r hr.1 (Or.inl (by simpa using hr.2))),
      applied_scanLog w _ _ (fun r hr => by
        rw [List.mem_filter] at hr
        exact hc r hr.1 (Or.inr (by simpa using hr.2)))]
    simp only [List.nil_append, List.mem_append, mem_pairsInOrder, List.mem_filter,
      decide_eq_true_eq]
    tauto

/-! ## The claims -/

/-- C1, as stated, fails: in a world where `creds.py` holds the access key
`AKIA1234567890ABCDEF` on two lines, the pattern `AKIA[0-9A-Z]{16}` has two
matches in the content, but `scanSource` reports a single detection for the
pair, so its report is not the all-matches report. -/
theorem c1_reports_one_of_two :
    akiaRegexp.FindAllStringSubmatch credsBody =
        [["AKIA1234567890ABCDEF"], ["AKIA1234567890ABCDEF"]] ∧
      compiles credsWorld awsRule.SecretPattern = true ∧
      readable credsWorld "creds.py" = true ∧
      detections (scanSource credsWorld [awsRule] ["creds.py"]).log =
        [⟨"AWSKey", "Python", "creds.py", "AKIA1234567890ABCDEF"⟩] ∧
      (allMatchesReport credsWorld awsRule "creds.py").length = 2 ∧
      detections (scanSource credsWorld [awsRule] ["creds.py"]).log ≠
        allMatchesReport credsWorld awsRule "creds.py" := by
  decide

/-- C1, amended: when every rule's pattern compiles, the detections
`scanSource` reports are, pair by pair, the first-match report: nothing for a
pair whose file is unreadable or has no match, and otherwise exactly one
detection, which carries the whole text of the leftmost match. -/
theorem c1_first_match_per_pair (w : World) (rules : List ApplicationRule)
    (source : List String) (hc : ∀ r ∈ rules, compiles w r.SecretPattern = true) :
    detections (scanSource w rules source).log =
      rules.flatMap (fun r => source.flatMap (firstMatchReport w r)) :=
  detections_scanSource w rules source hc

/-- Witness of `c1_first_match_per_pair`: the file holding the key twice
yields exactly one detection. -/
theorem c1_first_match_per_pair_witness :
    (∀ r ∈ [awsRule], compiles credsWorld r.SecretPattern = true) ∧
      detections (scanSource credsWorld [awsRule] ["creds.py"]).log =
        [⟨"AWSKey", "Python", "creds.py", "AKIA1234567890ABCDEF"⟩] :=
  ⟨by decide, by
    rw [c1_first_match_per_pair credsWorld [awsRule] ["creds.py"] (by decide)]
    decide⟩

/-- C9: for a rule whose pattern compiles and a readable file whose content
has no match, the loop body of `scanSource` for the pair, and so the scan of
the pair, returns normally having logged nothing: zero detections and zero
errors. -/
theorem c9_no_match_no_output (w : World) (rule : ApplicationRule) (file : String)
    (re : Regexp) (body : String)
    (hc : w.Compile rule.SecretPattern = .ok re) (hr : w.ReadFile file = .ok body)
    (hm : re.FindAllStringSubmatch body = []) :
    scanFile w rule file = ⟨[Event.attempt rule file], .ok⟩ ∧
      scanSource w [rule] [file] = ⟨[Event.attempt rule file], .ok⟩ ∧
      detections (scanSource w [rule] [file]).log = [] ∧
      errors (scanSource w [rule] [file]).log = [] := by
  have h0 : scanFile w rule file = ⟨[Event.attempt rule file], .ok⟩ := by
    rw [scanFile_of_compile w rule file re hc, hr]
    simp [hm]
  have h : scanSource w [rule] [file] = ⟨[Event.attempt rule file], .ok⟩ := by
    rw [scanSource_single, h0]
  rw [h]
  refine ⟨h0, rfl, ?_, rfl⟩
  simp only []
  rw [detections_skip _ _ (by simp)]
  rfl

/-- Witness of `c9_no_match_no_output`: the key pattern on a file without a
key. -/
theorem c9_no_match_no_output_witness :
    (tableWorld (.ok []) [("clean.py", "print(1)\n")] [] []).Compile awsRule.SecretPattern =
        .ok akiaRegexp ∧
      errors (scanSource (tableWorld (.ok []) [("clean.py", "print(1)\n")] [] [])
        [awsRule] ["clean.py"]).log = [] :=
  ⟨rfl, (c9_no_match_no_output (tableWorld (.ok []) [("clean.py", "print(1)\n")] [] [])
    awsRule "clean.py" akiaRegexp "print(1)\n" rfl rfl (by decide)).2.2.2⟩

/-- C10: for a rule whose pattern compiles and a readable file with at least
one match `m`, the scan of the pair emits exactly one detection, whose text
is `m[0]`, the whole text of the leftmost match, whatever follows `m` in the
result and whatever groups `m` has; and no scan ever panics on the index
expression `result[k][k]`. -/
theorem c10_one_detection_leftmost (w : World) (rule : ApplicationRule) (file : String)
    (re : Regexp) (body : String) (m : List String) (rest : List (List String))
    (hc : w.Compile rule.SecretPattern = .ok re) (hr : w.ReadFile file = .ok body)
    (hm : re.FindAllStringSubmatch body = m :: rest) :
    (∃ text groups, m = text :: groups ∧
      scanSource w [rule] [file] =
        ⟨Event.attempt rule file ::
          detectionLines ⟨rule.RuleName, rule.Language, file, text⟩, .ok⟩ ∧
      detections (scanSource w [rule] [file]).log =
        [⟨rule.RuleName, rule.Language, file, text⟩]) ∧
    ∀ rules source, (scanSource w rules source).status ≠ .panic .indexOutOfRange := by
  refine ⟨?_, scanSource_no_index_panic w⟩
  cases m with
  | nil => exact absurd rfl (re.submatch_ne_nil body [] (by simp [hm]))
  | cons text groups =>
    have h : scanSource w [rule] [file] =
        ⟨Event.attempt rule file ::
          detectionLines ⟨rule.RuleName, rule.Language, file, text⟩, .ok⟩ := by
      rw [scanSource_single, scanFile_of_compile w rule file re hc, hr]
      simp [hm, detectionOf]
    refine ⟨text, groups, rfl, h, ?_⟩
    rw [h]
    simp only []
    rw [detections_skip _ _ (by simp)]
    have := detections_lines ⟨rule.RuleName, rule.Language, file, text⟩ []
    simpa [detections] using this

/-- Witness of `c10_one_detection_leftmost`: two matches in `creds.py`, one
detection. -/
theorem c10_one_detection_leftmost_witness :
    akiaRegexp.FindAllStringSubmatch credsBody =
        ["AKIA1234567890ABCDEF"] :: [["AKIA1234567890ABCDEF"]] ∧
      ∃ text groups, ["AKIA1234567890ABCDEF"] = text :: groups ∧
        scanSource credsWorld [awsRule] ["creds.py"] =
          ⟨Event.attempt awsRule "creds.py" ::
            detectionLines ⟨awsRule.RuleName, awsRule.Language, "creds.py", text⟩, .ok⟩ ∧
        detections (scanSource credsWorld [awsRule] ["creds.py"]).log =
          [⟨awsRule.RuleName, awsRule.Language, "creds.py", text⟩] :=
  ⟨by decide, (c10_one_detection_leftmost credsWorld awsRule "creds.py" akiaRegexp credsBody
    ["AKIA1234567890ABCDEF"] [["AKIA1234567890ABCDEF"]] rfl rfl (by decide)).1⟩

/-- C8: when every pattern compiles, the sequence of detections `scanSource`
emits is the concatenation, over the index pairs (rule index, file index)
taken in lexicographic order, of the report of each pair, and a pair reports
at most one detection: detections come by rule index, then by file index. -/
theorem c8_emission_order (w : World) (rules : List ApplicationRule)
    (source : List String) (hc : ∀ r ∈ rules, compiles w r.SecretPattern = true) :
    detections (scanSource w rules source).log =
        (indexPairs rules.length source.length).flatMap (reportAt w rules source) ∧
      (indexPairs rules.length source.length).Pairwise pairBefore ∧
      ∀ p, (reportAt w rules source p).length ≤ 1 := by
  refine ⟨?_, indexPairs_pairwise _ _, ?_⟩
  · rw [detections_scanSource w rules source hc, flatMap_eq_range rules]
    unfold indexPairs
    rw [List.flatMap_assoc]
    congr 1
    funext r
    rw [List.flatMap_map]
    cases hr : rules.get? r with
    | none =>
      have h : ∀ s, reportAt w rules source (r, s) = [] := by
        intro s; simp only [reportAt, hr]
      simp [h]
    | some rule =>
      simp only [reportAt, hr]
      rw [flatMap_eq_range source]
      congr 1
      funext s
      cases source.get? s <;> rfl
  · intro p
    unfold reportAt
    split
    · exact firstMatchReport_length w _ _
    · simp

/-- Witness of `c8_emission_order`: two rules over two files holding a key
report in the order (0,0), (0,1), (1,0), (1,1). -/
theorem c8_emission_order_witness :
    (∀ r ∈ [awsRule, { awsRule with RuleName := "Second" }],
        compiles (tableWorld (.ok []) [("a.py", credsBody), ("b.py", credsBody)] [] [])
          r.SecretPattern = true) ∧
      detections (scanSource
          (tableWorld (.ok []) [("a.py", credsBody), ("b.py", credsBody)] [] [])
          [awsRule, { awsRule with RuleName := "Second" }] ["a.py", "b.py"]).log =
        [⟨"AWSKey", "Python", "a.py", "AKIA1234567890ABCDEF"⟩,
         ⟨"AWSKey", "Python", "b.py", "AKIA1234567890ABCDEF"⟩,
         ⟨"Second", "Python", "a.py", "AKIA1234567890ABCDEF"⟩,
         ⟨"Second", "Python", "b.py", "AKIA1234567890ABCDEF"⟩] :=
  ⟨by decide, by
    rw [(c8_emission_order _ _ _ (by decide)).1]
    decide⟩

/-- C2, as stated, fails: with the rule of pattern `(`, which does not
compile, ahead of the access-key rule, whose pattern does, and one readable
source file, `scanSource` panics in `regexp.MustCompile` and the access-key
rule is applied to no file. -/
theorem c2_bad_pattern_aborts :
    compiles credsWorld "(" = false ∧
      compiles credsWorld awsRule.SecretPattern = true ∧
      (scanSource credsWorld [⟨"", "Python", "", "Broken", "("⟩, awsRule] ["creds.py"]).status =
        .panic (.mustCompile "(" "error parsing regexp") ∧
      applied (scanSource credsWorld [⟨"", "Python", "", "Broken", "("⟩, awsRule]
        ["creds.py"]).log = [] := by
  decide

/-- C2, amended: on a non-empty source list, `scanSource` panics in
`regexp.MustCompile` when it reaches the first rule whose pattern does not
compile; the rules ahead of that rule have been applied to every file, as
in a scan of those rules alone, and that rule and the rules behind it are
applied to no file. -/
theorem c2_panic_at_first_bad_rule (w : World) (pre post : List ApplicationRule)
    (bad : ApplicationRule) (s : String) (source : List String)
    (hpre : ∀ r ∈ pre, compiles w r.SecretPattern = true)
    (hbad : compiles w bad.SecretPattern = false) :
    (∃ err, w.Compile bad.SecretPattern = .error err ∧
      scanSource w (pre ++ bad :: post) (s :: source) =
        ⟨(scanSource w pre (s :: source)).log,
          .panic (.mustCompile bad.SecretPattern err)⟩) ∧
      applied (scanSource w (pre ++ bad :: post) (s :: source)).log =
        pairsInOrder pre (s :: source) := by
  obtain ⟨err, herr⟩ := (compiles_false_iff w _).mp hbad
  have h : scanSource w (pre ++ bad :: post) (s :: source) =
      ⟨(scanSource w pre (s :: source)).log,
        .panic (.mustCompile bad.SecretPattern err)⟩ := by
    rw [scanSource_append, scanSource_eq w pre (s :: source) hpre, andThen_ok, scanSource,
      scanFiles_of_not_compile w bad s source err herr]
    simp [Outcome.andThen]
  refine ⟨⟨err, herr, h⟩, ?_⟩
  rw [h]
  exact applied_scanSource w pre (s :: source) hpre

/-- Witness of `c2_panic_at_first_bad_rule`: the access-key rule ahead of
the rule of pattern `(` is applied, then the scan panics. -/
theorem c2_panic_at_first_bad_rule_witness :
    (∀ r ∈ [awsRule], compiles credsWorld r.SecretPattern = true) ∧
      compiles credsWorld (ApplicationRule.mk "" "Python" "" "Broken" "(").SecretPattern =
        false ∧
      applied (scanSource credsWorld
        ([awsRule] ++ ApplicationRule.mk "" "Python" "" "Broken" "(" :: [awsRule])
        ("creds.py" :: [])).log = pairsInOrder [awsRule] ("creds.py" :: []) :=
  ⟨by decide, by decide,
    (c2_panic_at_first_bad_rule credsWorld [awsRule] [awsRule]
      (ApplicationRule.mk "" "Python" "" "Broken" "(") "creds.py" []
      (by decide) (by decide)).2⟩

/-- C3: when every pattern compiles, a file whose read fails is skipped and
the scan goes on: it returns normally, and the detections it reports are
those of the scan of the source list without that file. -/
theorem c3_unreadable_file_skipped (w : World) (rules : List ApplicationRule)
    (pre post : List String) (file : String)
    (hc : ∀ r ∈ rules, compiles w r.SecretPattern = true)
    (hf : readable w file = false) :
    (scanSource w rules (pre ++ file :: post)).status = .ok ∧
      detections (scanSource w rules (pre ++ file :: post)).log =
        detections (scanSource w rules (pre ++ post)).log := by
  constructor
  · rw [scanSource_eq w rules _ hc]
  · rw [detections_scanSource w rules _ hc, detections_scanSource w rules _ hc]
    congr 1
    funext r
    simp [firstMatchReport_unreadable w r file hf]

/-- Witness of `c3_unreadable_file_skipped`: a missing file between two
files that hold a key. -/
theorem c3_unreadable_file_skipped_witness :
    (∀ r ∈ [awsRule],
        compiles (tableWorld (.ok []) [("a.py", credsBody), ("b.py", credsBody)] [] [])
          r.SecretPattern = true) ∧
      readable (tableWorld (.ok []) [("a.py", credsBody), ("b.py", credsBody)] [] [])
        "gone.py" = false ∧
      detections (scanSource
          (tableWorld (.ok []) [("a.py", credsBody), ("b.py", credsBody)] [] [])
          [awsRule] (["a.py"] ++ "gone.py" :: ["b.py"])).log =
        detections (scanSource
          (tableWorld (.ok []) [("a.py", credsBody), ("b.py", credsBody)] [] [])
          [awsRule] (["a.py"] ++ ["b.py"])).log :=
  ⟨by decide, by decide,
    (c3_unreadable_file_skipped _ [awsRule] ["a.py"] ["b.py"] "gone.py"
      (by decide) (by decide)).2⟩

/-- C7, as stated, fails: with a Python rule of pattern `(` and a Go rule
whose pattern compiles, one `.py` file and one `.go` file, `main` panics in
the scan of the Python rules, and the Go rule is never applied to the `.go`
file. -/
theorem c7_python_panic_stops_go :
    (loadRules (tableWorld (.ok ["a.yaml", "b.yaml"])
        [("/w/rules/a.yaml", "a"), ("/w/rules/b.yaml", "b")]
        [("a", ⟨"", "Python", "", "Broken", "("⟩),
         ("b", ⟨"", "Go", "", "GoKey", "AKIA[0-9A-Z]{16}"⟩)]
        [.entry "/w/fixtures" "fixtures", .entry "/w/fixtures/x.py" "x.py",
         .entry "/w/fixtures/y.go" "y.go"]) "/w/rules").2 =
      [⟨"", "Python", "", "Broken", "("⟩, ⟨"", "Go", "", "GoKey", "AKIA[0-9A-Z]{16}"⟩] ∧
    findSource (tableWorld (.ok ["a.yaml", "b.yaml"])
        [("/w/rules/a.yaml", "a"), ("/w/rules/b.yaml", "b")]
        [("a", ⟨"", "Python", "", "Broken", "("⟩),
         ("b", ⟨"", "Go", "", "GoKey", "AKIA[0-9A-Z]{16}"⟩)]
        [.entry "/w/fixtures" "fixtures", .entry "/w/fixtures/x.py" "x.py",
         .entry "/w/fixtures/y.go" "y.go"]) "/w/fixtures" ".go" = ["/w/fixtures/y.go"] ∧
    main (tableWorld (.ok ["a.yaml", "b.yaml"])
        [("/w/rules/a.yaml", "a"), ("/w/rules/b.yaml", "b")]
        [("a", ⟨"", "Python", "", "Broken", "("⟩),
         ("b", ⟨"", "Go", "", "GoKey", "AKIA[0-9A-Z]{16}"⟩)]
        [.entry "/w/fixtures" "fixtures", .entry "/w/fixtures/x.py" "x.py",
         .entry "/w/fixtures/y.go" "y.go"]) =
      ⟨[Event.info ["Detector started"]],
        .panic (.mustCompile "(" "error parsing regexp")⟩ ∧
    (⟨"", "Go", "", "GoKey", "AKIA[0-9A-Z]{16}"⟩, "/w/fixtures/y.go") ∉
      applied (main (tableWorld (.ok ["a.yaml", "b.yaml"])
        [("/w/rules/a.yaml", "a"), ("/w/rules/b.yaml", "b")]
        [("a", ⟨"", "Python", "", "Broken", "("⟩),
         ("b", ⟨"", "Go", "", "GoKey", "AKIA[0-9A-Z]{16}"⟩)]
        [.entry "/w/fixtures" "fixtures", .entry "/w/fixtures/x.py" "x.py",
         .entry "/w/fixtures/y.go" "y.go"])).log := by
  decide

/-- C7, amended: when the patterns of the loaded Python and Go rules
compile, `main` applies a rule `R` to a file `F` if and only if `R` is a
loaded rule and either `R.Language` is exactly `Python` and `F` is in the
`.py` list, or `R.Language` is exactly `Go` and `F` is in the `.go` list; a
rule of any other language is applied to no file, whatever its pattern, and
does not keep the others from being applied. -/
theorem c7_dispatch_by_language (w : World) (dir : String) (hd : w.Getwd = .ok dir)
    (hc : ∀ r ∈ (loadRules w (dir ++ "/rules")).2,
      r.Language = "Python" ∨ r.Language = "Go" → compiles w r.SecretPattern = true)
    (R : ApplicationRule) (F : String) :
    (R, F) ∈ applied (main w).log ↔
      R ∈ (loadRules w (dir ++ "/rules")).2 ∧
        ((R.Language = "Python" ∧ F ∈ findSource w (dir ++ "/fixtures") ".py") ∨
         (R.Language = "Go" ∧ F ∈ findSource w (dir ++ "/fixtures") ".go")) :=
  applied_main w dir hd hc R F

/-- Witness of `c7_dispatch_by_language`: a Python rule, a Go rule and a
rule of language `python`, whose pattern does not compile; the Go rule is
applied to the `.go` file. -/
theorem c7_dispatch_by_language_witness :
    (tableWorld (.ok ["a.yaml", "b.yaml", "c.yaml"])
        [("/w/rules/a.yaml", "a"), ("/w/rules/b.yaml", "b"), ("/w/rules/c.yaml", "c")]
        [("a", awsRule), ("b", ⟨"", "Go", "", "GoKey", "AKIA[0-9A-Z]{16}"⟩),
         ("c", ⟨"", "python", "", "Lower", "("⟩)]
        [.entry "/w/fixtures" "fixtures", .entry "/w/fixtures/x.py" "x.py",
         .entry "/w/fixtures/y.go" "y.go"]).Getwd = .ok "/w" ∧
    ((⟨"", "Go", "", "GoKey", "AKIA[0-9A-Z]{16}"⟩, "/w/fixtures/y.go") ∈
      applied (main (tableWorld (.ok ["a.yaml", "b.yaml", "c.yaml"])
        [("/w/rules/a.yaml", "a"), ("/w/rules/b.yaml", "b"), ("/w/rules/c.yaml", "c")]
        [("a", awsRule), ("b", ⟨"", "Go", "", "GoKey", "AKIA[0-9A-Z]{16}"⟩),
         ("c", ⟨"", "python", "", "Lower", "("⟩)]
        [.entry "/w/fixtures" "fixtures", .entry "/w/fixtures/x.py" "x.py",
         .entry "/w/fixtures/y.go" "y.go"])).log) :=
  ⟨rfl, (c7_dispatch_by_language _ "/w" rfl (by decide) _ _).mpr (by decide)⟩

/-- C5, as stated, fails: the only entry of the rules directory decodes to a
rule of language `Python` whose pattern is empty, so no entry yields a valid
rule; yet `main` does not terminate with the fatal error: it applies the
rule to the Python file and returns normally. -/
theorem c5_invalid_rule_not_fatal :
    (loadRules (tableWorld (.ok ["nopattern.yaml"]) [("/w/rules/nopattern.yaml", "n"),
        ("/w/fixtures/app.py", "x = 1\n")] [("n", ⟨"", "Python", "requests", "NoPattern", ""⟩)]
        [.entry "/w/fixtures" "fixtures", .entry "/w/fixtures/app.py" "app.py"])
        "/w/rules").2 = [⟨"", "Python", "requests", "NoPattern", ""⟩] ∧
      (main (tableWorld (.ok ["nopattern.yaml"]) [("/w/rules/nopattern.yaml", "n"),
        ("/w/fixtures/app.py", "x = 1\n")] [("n", ⟨"", "Python", "requests", "NoPattern", ""⟩)]
        [.entry "/w/fixtures" "fixtures", .entry "/w/fixtures/app.py" "app.py"])).status =
        .ok ∧
      applied (main (tableWorld (.ok ["nopattern.yaml"]) [("/w/rules/nopattern.yaml", "n"),
        ("/w/fixtures/app.py", "x = 1\n")] [("n", ⟨"", "Python", "requests", "NoPattern", ""⟩)]
        [.entry "/w/fixtures" "fixtures", .entry "/w/fixtures/app.py" "app.py"])).log =
        [(⟨"", "Python", "requests", "NoPattern", ""⟩, "/w/fixtures/app.py")] := by
  decide

/-- C5, amended: `main` terminates with the fatal error if and only if
`loadRules` returns no rule record, valid or not; this is the case when the
rules directory has no entry or cannot be listed.  The run then ends with
the fatal message `No detection rules found`, and no file has been
scanned. -/
theorem c5_fatal_iff_no_rule_record (w : World) (dir : String)
    (hd : w.Getwd = .ok dir) :
    ((main w).status = .fatal ↔ (loadRules w (dir ++ "/rules")).2 = []) ∧
    ((match w.ReadDir (dir ++ "/rules") with
      | .ok files => files = []
      | .error _ => True) → (main w).status = .fatal) ∧
    ((main w).status = .fatal →
      main w = ⟨Event.info ["Detector started"] :: (loadRules w (dir ++ "/rules")).1 ++
        [Event.fatal ["No detection rules found"]], .fatal⟩ ∧
      applied (main w).log = []) := by
  have hfatal : (loadRules w (dir ++ "/rules")).2 = [] →
      main w = ⟨Event.info ["Detector started"] :: (loadRules w (dir ++ "/rules")).1 ++
        [Event.fatal ["No detection rules found"]], .fatal⟩ ∧
      applied (main w).log = [] := by
    intro hnil
    refine ⟨main_no_rules w dir hd hnil, ?_⟩
    rw [main_no_rules w dir hd hnil]
    apply applied_eq_nil
    intro e he r f
    simp only [List.cons_append, List.mem_cons, List.mem_append, List.mem_nil_iff,
      or_false] at he
    rcases he with h | h | h
    · subst h; simp
    · obtain ⟨args, rfl⟩ := loadRules_log w _ e h; simp
    · subst h; simp
  have hiff : (main w).status = .fatal ↔ (loadRules w (dir ++ "/rules")).2 = [] := by
    constructor
    · intro hs
      by_contra hne
      exact main_status_of_rules w dir hd hne hs
    · intro hnil
      rw [main_no_rules w dir hd hnil]
  exact ⟨hiff, fun hdir => hiff.mpr ((loadRules_rules_eq_nil w _).mpr hdir),
    fun hs => hfatal (hiff.mp hs)⟩

/-- Witness of `c5_fatal_iff_no_rule_record`: an empty rules directory. -/
theorem c5_fatal_iff_no_rule_record_witness :
    (tableWorld (.ok []) [] [] []).Getwd = .ok "/w" ∧
      (main (tableWorld (.ok []) [] [] [])).status = .fatal ∧
      main (tableWorld (.ok []) [] [] []) =
        ⟨Event.info ["Detector started"] ::
          (loadRules (tableWorld (.ok []) [] [] []) ("/w" ++ "/rules")).1 ++
          [Event.fatal ["No detection rules found"]], .fatal⟩ :=
  ⟨rfl, (c5_fatal_iff_no_rule_record (tableWorld (.ok []) [] [] []) "/w" rfl).2.1 rfl,
    ((c5_fatal_iff_no_rule_record (tableWorld (.ok []) [] [] []) "/w" rfl).2.2
      (by decide)).1⟩

/-- C6, as stated, fails: with one valid rule loaded and a `fixtures`
directory that does not exist, `main` logs no fatal error and returns
normally. -/
theorem c6_missing_root_returns_normally :
    (loadRules (tableWorld (.ok ["aws.yaml"]) [("/w/rules/aws.yaml", "a")] [("a", awsRule)]
        [.failure "/w/fixtures" "no such file or directory"]) "/w/rules").2 = [awsRule] ∧
      main (tableWorld (.ok ["aws.yaml"]) [("/w/rules/aws.yaml", "a")] [("a", awsRule)]
        [.failure "/w/fixtures" "no such file or directory"]) =
        ⟨[Event.info ["Detector started"]], .ok⟩ := by
  decide

/-- C6, amended: for every non-empty loaded rule set, when the corpus root
`fixtures` does not exist or cannot be read, `findSource` returns no file
for either extension and `main` attempts no detection; it logs no fatal
error and returns normally. -/
theorem c6_unreadable_root_no_scan (w : World) (dir : String)
    (hd : w.Getwd = .ok dir) (hne : (loadRules w (dir ++ "/rules")).2 ≠ [])
    (hroot : rootFailed (w.WalkDir (dir ++ "/fixtures")) = true) :
    findSource w (dir ++ "/fixtures") ".py" = [] ∧
      findSource w (dir ++ "/fixtures") ".go" = [] ∧
      (main w).status = .ok ∧
      applied (main w).log = [] ∧
      detections (main w).log = [] ∧
      ∀ e ∈ (main w).log, ∀ args, e ≠ Event.fatal args := by
  have hpy := findSource_of_rootFailed w (dir ++ "/fixtures") ".py" (by decide) hroot
  have hgo := findSource_of_rootFailed w (dir ++ "/fixtures") ".go" (by decide) hroot
  have hmain : main w = ⟨Event.info ["Detector started"] :: (loadRules w (dir ++ "/rules")).1 ++
      (filterRules (loadRules w (dir ++ "/rules")).2).1, .ok⟩ := by
    unfold main
    rw [hd]
    simp only
    rw [if_neg (by rw [List.length_eq_zero]; exact hne), hpy, hgo, scanIfAny_no_source,
      scanIfAny_no_source]
    simp [Outcome.andThen]
  refine ⟨hpy, hgo, ?_, ?_, ?_, ?_⟩
  · rw [hmain]
  · rw [hmain]
    exact applied_eq_nil _ (fun e he => (main_prelude w _ _ e he).1)
  · rw [hmain]
    have h := detections_drop _ [] (fun e he => (main_prelude w (dir ++ "/rules")
      (loadRules w (dir ++ "/rules")).2 e he).2.1)
    rw [List.append_nil] at h
    rw [h]; rfl
  · rw [hmain]
    exact fun e he => (main_prelude w _ _ e he).2.2

/-- Witness of `c6_unreadable_root_no_scan`: the root entry is visited, then
reading it fails. -/
theorem c6_unreadable_root_no_scan_witness :
    (loadRules (tableWorld (.ok ["aws.yaml"]) [("/w/rules/aws.yaml", "a")] [("a", awsRule)]
        [.entry "/w/fixtures" "fixtures", .failure "/w/fixtures" "permission denied"])
        ("/w" ++ "/rules")).2 ≠ [] ∧
      rootFailed ((tableWorld (.ok ["aws.yaml"]) [("/w/rules/aws.yaml", "a")] [("a", awsRule)]
        [.entry "/w/fixtures" "fixtures", .failure "/w/fixtures" "permission denied"]).WalkDir
        ("/w" ++ "/fixtures")) = true ∧
      (main (tableWorld (.ok ["aws.yaml"]) [("/w/rules/aws.yaml", "a")] [("a", awsRule)]
        [.entry "/w/fixtures" "fixtures",
         .failure "/w/fixtures" "permission denied"])).status = .ok :=
  ⟨by decide, by decide,
    (c6_unreadable_root_no_scan _ "/w" rfl (by decide) (by decide)).2.2.1⟩

/-- C4, as stated, fails: a rule file without `secretPattern` decodes to a
rule of language `Python` whose pattern is empty; the rule is not rejected,
and `main` reports a detection, with empty text, for the Python file. -/
theorem c4_empty_pattern_reported :
    (loadRules (tableWorld (.ok ["nopattern.yaml"]) [("/w/rules/nopattern.yaml", "n"),
        ("/w/fixtures/app.py", "x = 1\n")] [("n", ⟨"", "Python", "requests", "NoPattern", ""⟩)]
        [.entry "/w/fixtures" "fixtures", .entry "/w/fixtures/app.py" "app.py"])
        "/w/rules").2 = [⟨"", "Python", "requests", "NoPattern", ""⟩] ∧
      detections (main (tableWorld (.ok ["nopattern.yaml"]) [("/w/rules/nopattern.yaml", "n"),
        ("/w/fixtures/app.py", "x = 1\n")] [("n", ⟨"", "Python", "requests", "NoPattern", ""⟩)]
        [.entry "/w/fixtures" "fixtures", .entry "/w/fixtures/app.py" "app.py"])).log =
        [⟨"NoPattern", "Python", "/w/fixtures/app.py", ""⟩] := by
  decide

/-- C4, amended: a rule whose `SecretPattern` is the empty string is not
rejected: the record `loadRules` decodes from a readable entry of the rules
directory is loaded whatever its pattern, and it is compiled and applied
like any other rule.  Where the empty pattern compiles to an expression that
matches the empty string at the start of any content, and the patterns of
the loaded Python and Go rules compile, `main` reports for such a rule a
detection with empty text in every readable file of the rule's language. -/
theorem c4_empty_pattern_applied (w : World) (dir : String) (re : Regexp)
    (files : List String) (name yaml : String)
    (hd : w.Getwd = .ok dir)
    (hdir : w.ReadDir (dir ++ "/rules") = .ok files) (hname : name ∈ files)
    (hread : w.ReadFile (dir ++ "/rules" ++ "/" ++ name) = .ok yaml)
    (hc : ∀ r ∈ (loadRules w (dir ++ "/rules")).2,
      r.Language = "Python" ∨ r.Language = "Go" → compiles w r.SecretPattern = true)
    (hre : w.Compile "" = .ok re)
    (hempty : ∀ body, ∃ rest, re.FindAllStringSubmatch body = [""] :: rest)
    (R : ApplicationRule) (F : String)
    (hyaml : w.Unmarshal yaml = R) (hp : R.SecretPattern = "")
    (hF : readable w F = true)
    (hlang : (R.Language = "Python" ∧ F ∈ findSource w (dir ++ "/fixtures") ".py") ∨
      (R.Language = "Go" ∧ F ∈ findSource w (dir ++ "/fixtures") ".go")) :
    R ∈ (loadRules w (dir ++ "/rules")).2 ∧
      (R, F) ∈ applied (main w).log ∧
      (⟨R.RuleName, R.Language, F, ""⟩ : Detection) ∈ detections (main w).log := by
  have hR : R ∈ (loadRules w (dir ++ "/rules")).2 := by
    rw [← hyaml]
    exact loadRules_mem w (dir ++ "/rules") files name yaml hdir hname hread
  refine ⟨hR, (applied_main w dir hd hc R F).mpr ⟨hR, hlang⟩, ?_⟩
  have hne : (loadRules w (dir ++ "/rules")).2 ≠ [] := List.ne_nil_of_mem hR
  have hrep : firstMatchReport w R F = [⟨R.RuleName, R.Language, F, ""⟩] := by
    unfold firstMatchReport allMatchesReport
    unfold readable at hF
    rw [hp, hre]
    cases hr : w.ReadFile F with
    | error err => rw [hr] at hF; simp at hF
    | ok body =>
      obtain ⟨rest, hrest⟩ := hempty body
      simp [hrest, detectionOf]
  rw [detections_main w dir hd hne hc]
  simp only [List.mem_append, List.mem_flatMap, List.mem_filter, decide_eq_true_eq]
  rcases hlang with ⟨hl, hf⟩ | ⟨hl, hf⟩
  · exact Or.inl ⟨R, ⟨hR, hl⟩, F, hf, by rw [hrep]; simp⟩
  · exact Or.inr ⟨R, ⟨hR, hl⟩, F, hf, by rw [hrep]; simp⟩

/-- Witness of `c4_empty_pattern_applied`: the rule file without
`secretPattern` and one Python file. -/
theorem c4_empty_pattern_applied_witness :
    (tableWorld (.ok ["nopattern.yaml"]) [("/w/rules/nopattern.yaml", "n"),
        ("/w/fixtures/app.py", "x = 1\n")] [("n", ⟨"", "Python", "requests", "NoPattern", ""⟩)]
        [.entry "/w/fixtures" "fixtures", .entry "/w/fixtures/app.py" "app.py"]).ReadDir
        ("/w" ++ "/rules") = .ok ["nopattern.yaml"] ∧
      (tableWorld (.ok ["nopattern.yaml"]) [("/w/rules/nopattern.yaml", "n"),
        ("/w/fixtures/app.py", "x = 1\n")] [("n", ⟨"", "Python", "requests", "NoPattern", ""⟩)]
        [.entry "/w/fixtures" "fixtures", .entry "/w/fixtures/app.py" "app.py"]).ReadFile
        ("/w" ++ "/rules" ++ "/" ++ "nopattern.yaml") = .ok "n" ∧
      (tableWorld (.ok ["nopattern.yaml"]) [("/w/rules/nopattern.yaml", "n"),
        ("/w/fixtures/app.py", "x = 1\n")] [("n", ⟨"", "Python", "requests", "NoPattern", ""⟩)]
        [.entry "/w/fixtures" "fixtures", .entry "/w/fixtures/app.py" "app.py"]).Unmarshal
        "n" = ⟨"", "Python", "requests", "NoPattern", ""⟩ ∧
      (⟨"", "Python", "requests", "NoPattern", ""⟩ : ApplicationRule).SecretPattern = "" ∧
      readable (tableWorld (.ok ["nopattern.yaml"]) [("/w/rules/nopattern.yaml", "n"),
        ("/w/fixtures/app.py", "x = 1\n")] [("n", ⟨"", "Python", "requests", "NoPattern", ""⟩)]
        [.entry "/w/fixtures" "fixtures", .entry "/w/fixtures/app.py" "app.py"])
        "/w/fixtures/app.py" = true ∧
      (⟨"", "Python", "requests", "NoPattern", ""⟩ : ApplicationRule) ∈
        (loadRules (tableWorld (.ok ["nopattern.yaml"]) [("/w/rules/nopattern.yaml", "n"),
          ("/w/fixtures/app.py", "x = 1\n")]
          [("n", ⟨"", "Python", "requests", "NoPattern", ""⟩)]
          [.entry "/w/fixtures" "fixtures", .entry "/w/fixtures/app.py" "app.py"])
          ("/w" ++ "/rules")).2 ∧
      (⟨"NoPattern", "Python", "/w/fixtures/app.py", ""⟩ : Detection) ∈
        detections (main (tableWorld (.ok ["nopattern.yaml"]) [("/w/rules/nopattern.yaml", "n"),
          ("/w/fixtures/app.py", "x = 1\n")]
          [("n", ⟨"", "Python", "requests", "NoPattern", ""⟩)]
          [.entry "/w/fixtures" "fixtures", .entry "/w/fixtures/app.py" "app.py"])).log :=
  have h := c4_empty_pattern_applied
    (tableWorld (.ok ["nopattern.yaml"]) [("/w/rules/nopattern.yaml", "n"),
      ("/w/fixtures/app.py", "x = 1\n")] [("n", ⟨"", "Python", "requests", "NoPattern", ""⟩)]
      [.entry "/w/fixtures" "fixtures", .entry "/w/fixtures/app.py" "app.py"])
    "/w" emptyRegexp ["nopattern.yaml"] "nopattern.yaml" "n" rfl rfl (by decide)
    rfl (by decide) rfl
    (fun body => ⟨List.replicate body.length [""], by
      simp [emptyRegexp, List.replicate_succ]⟩)
    ⟨"", "Python", "requests", "NoPattern", ""⟩ "/w/fixtures/app.py"
    (by decide) rfl (by decide) (Or.inl ⟨rfl, by decide⟩)
  ⟨rfl, rfl, by decide, rfl, by decide, h.1, h.2.2⟩

end Detector
